import Mathlib

/-!
Shallow embedding of the core of `needl` (github.com/danbrakeley/needl), a
directory-mirroring downloader, together with proofs about the embedded code.

The embedding follows the Go sources:
  * `cmd/needl/main.go`   — the sorted-merge diff engine (inline in `mainExit`)
  * `modtime.go`          — the download engine (`DownloadToFile`, `downloadImpl`,
                            `backoff`, `intPow`, `parseContentLength`, `parseCanResume`)
  * `internal/scraper/archivedotorg.go` — the listing-variant dispatch (`readType`)

Modelling conventions:
  * Go `time.Time` instants are modelled as `Nat`, with `0` playing the role of
    the zero instant (`time.Time{}`, `IsZero`); `Time.Equal` is `Nat` equality.
    Minute truncation is abstracted away: values of type `Nat` stand for
    already-truncated instants wherever the code truncates.
  * Go `int64` values that can be negative (sizes, Content-Length) are `Int`;
    counters that are always non-negative (`bytesRead`, `uint` retries) are
    `Nat`.  Arithmetic overflow of 64-bit values is not modelled: none of the
    verified claims exercises quantities anywhere near `2^63`.
  * HTTP headers are modelled by their observable parse results where the code
    only consumes a parsed value (`Last-Modified`), and by their raw string
    where the claim under verification talks about the parse itself
    (`Content-Length`, `Accept-Ranges`).
  * The network and filesystem are an explicit environment: a download run
    consumes a script (`List attempt`) describing what the server and the OS
    do at each HTTP attempt.
-/

/-! ## Data model (cmd/needl/main.go, internal/scraper/scraper.go) -/

/-- Mirror of `LocalFile` in `cmd/needl/main.go`. -/
structure LocalFile where
  name : String
  sortName : String
  timestamp : Nat
  size : Int
  deriving Repr, DecidableEq

/-- Mirror of `scraper.RemoteFile` in `internal/scraper/scraper.go`.
`timestamp = 0` is the "time unknown" zero instant; `size = -1` means
"size unknown". -/
structure RemoteFile where
  name : String
  sortName : String
  url : String
  timestamp : Nat
  size : Int
  deriving Repr, DecidableEq

/-- Lexicographic comparison of character lists, the order Go's `<` induces on
strings (byte-lexicographic UTF-8 order coincides with codepoint-lexicographic
order). -/
def goCharsLt : List Char → List Char → Bool
  | [], [] => false
  | [], _ :: _ => true
  | _ :: _, [] => false
  | a :: as, b :: bs => if a < b then true else if b < a then false else goCharsLt as bs

/-- Go's `<` on strings. -/
def goStringLt (a b : String) : Bool :=
  goCharsLt a.data b.data

/-- The sorted-merge diff loop inlined in `mainExit`
(`cmd/needl/main.go`, lines 208–241).  Both inputs are expected to be sorted
ascending by `sortName`; the function performs the two-pointer merge exactly as
the Go loop does, including its change test
`!local.Timestamp.Equal(remote.Timestamp) || local.Size != remote.Size`.
The name `diffSortedFiles` is the one the repository's own test file uses for
this computation. -/
def diffSortedFiles : List LocalFile → List RemoteFile →
    List LocalFile × List RemoteFile × List RemoteFile
  | [], rs => ([], rs, [])
  | ls, [] => (ls, [], [])
  | l :: ls, r :: rs =>
    if goStringLt l.sortName r.sortName then
      let (e, m, c) := diffSortedFiles ls (r :: rs)
      (l :: e, m, c)
    else if goStringLt r.sortName l.sortName then
      let (e, m, c) := diffSortedFiles (l :: ls) rs
      (e, r :: m, c)
    else
      let (e, m, c) := diffSortedFiles ls rs
      if l.timestamp ≠ r.timestamp ∨ l.size ≠ r.size then (e, m, r :: c) else (e, m, c)
  termination_by ls rs => ls.length + rs.length

/-- Number of equal-`sortName` pairs between two listings: the cardinality of
the multiset intersection of the two `sortName` multisets (for each name, the
smaller of its two multiplicities).  This is the `{matched}` quantity of the
specification, defined independently of the merge. -/
def matchedCount (ls : List LocalFile) (rs : List RemoteFile) : Nat :=
  Multiset.card ((ls.map LocalFile.sortName : Multiset String) ∩
    (rs.map RemoteFile.sortName : Multiset String))

/-! ## Listing parser dispatch (internal/scraper/archivedotorg.go) -/

/-- Mirror of `adoSourceType`. -/
inductive adoSourceType where
  | adostSimple
  | adostFull
  deriving Repr, DecidableEq

/-- The set of bytes Go's `strings.TrimSpace` removes for ASCII input,
per `unicode.IsSpace`: space, \t, \n, \v, \f, \r (the Latin-1 additions
U+0085 and U+00A0 are included for completeness). -/
def goIsSpace (c : Char) : Bool :=
  c = ' ' ∨ c = '\t' ∨ c = '\n' ∨ c = (Char.ofNat 11) ∨ c = (Char.ofNat 12) ∨
    c = '\r' ∨ c = (Char.ofNat 133) ∨ c = (Char.ofNat 160)

/-- Model of `strings.TrimSpace`. -/
def goTrimSpace (s : String) : String :=
  ⟨((s.data.dropWhile goIsSpace).reverse.dropWhile goIsSpace).reverse⟩

/-- Character-list prefix test. -/
def listStartsWith : List Char → List Char → Bool
  | _, [] => true
  | [], _ :: _ => false
  | a :: as, b :: bs => a = b && listStartsWith as bs

/-- Model of Go's `strings.HasPrefix` (byte prefix = character prefix for
UTF-8 encodings of character sequences). -/
def goStartsWith (s p : String) : Bool :=
  listStartsWith s.data p.data

/-- Mirror of `ArchiveDotOrg.readType` (`archivedotorg.go`, lines 110–125).
The response body is modelled as its list of scanned lines.  The Go code calls
`s.Scan()` exactly once: it examines only the first line (whitespace-trimmed)
and returns an error (`none`) for everything else, including an empty body. -/
def readType (lines : List String) : Option adoSourceType :=
  match lines with
  | [] => none
  | line :: _ =>
    let line := goTrimSpace line
    if goStartsWith line "<!DOCTYPE html>" then some .adostFull
    else if goStartsWith line "<html>" then some .adostSimple
    else none

/-- First non-empty line of a body, the notion the specification's dispatch
rule is phrased in terms of (a line is empty when it trims to ""). -/
def firstNonEmptyLine (lines : List String) : Option String :=
  (lines.dropWhile (fun l => goTrimSpace l = "")).head?

/-! ## Download engine (modtime.go) -/

/-- Mirror of `DownloadOptions`. `expectedSize = 0` means size unknown,
`expectedLastModified = 0` means time unknown, `maxRetry = 0` means retry
forever. -/
structure DownloadOptions where
  expectedSize : Int
  expectedLastModified : Nat
  maxRetry : Nat
  deriving Repr, DecidableEq

/-- Mirror of `DownloadResults`. -/
structure DownloadResults where
  expectedSize : Int
  actualSize : Nat
  lastModified : Nat
  retries : Nat
  deriving Repr, DecidableEq

/-- Mirror of `downloadContext` (the `canResume` flag is threaded separately,
as the `canResume` parameter of `downloadImpl` is in the Go source). -/
structure downloadContext where
  opts : DownloadOptions
  bytesRead : Nat
  curRetry : Nat
  deriving Repr, DecidableEq

/-- What `io.Copy` of one response body does: deliver `n` bytes and then
either reach a clean EOF or fail with a read error. -/
inductive bodyRead where
  | eof (n : Nat)
  | readErr (n : Nat)
  deriving Repr, DecidableEq

/-- One HTTP response, as the download engine observes it, together with the
outcome of the local file operations the engine may perform while handling it.
`status` is the HTTP status code (carried so that theorems can talk about it;
`downloadImpl` in `modtime.go` never reads `resp.StatusCode`).
`acceptRanges` and `contentLength` are the raw header values (`none` = header
absent).  `lastModifiedMin` is the result of `parseLastModifiedMinute`: the
minute-truncated parsed `Last-Modified` instant, `0` when the header is absent
or unparseable.  `seekFails`/`truncateFails`/`closeBodyFails` say whether
`f.Seek`, `f.Truncate`, and the final `resp.Body.Close()` fail. -/
structure httpResp where
  status : Nat
  acceptRanges : Option String
  contentLength : Option String
  lastModifiedMin : Nat
  seekFails : Bool
  truncateFails : Bool
  closeBodyFails : Bool
  body : bodyRead
  deriving Repr, DecidableEq

/-- One HTTP attempt as scripted by the environment: either
`http.DefaultClient.Do` itself fails (a transport error), or it yields a
response. -/
inductive attempt where
  | transport
  | resp (r : httpResp)
  deriving Repr, DecidableEq

/-- The typed errors `downloadImpl` can return, one per `return fmt.Errorf`
site in `modtime.go`. -/
inductive dlError where
  | maxRetries            -- "max retries (%d) exceeded"          (line 140)
  | createRequest         -- "create request: %w"                 (line 145)
  | transport             -- "do request: %w"                     (line 192)
  | seekErr               -- "seek to start: %w"                  (line 205)
  | truncateErr           -- "truncate: %w"                       (line 208)
  | clMismatchResume      -- "expected remaining Content-Length…" (line 226)
  | clMismatch            -- "expected Content-Length…"           (line 233)
  | lmMismatch            -- "expected Last-Modified…"            (line 244)
  | readErr               -- "download: %w"                       (line 256)
  | closeBodyErr          -- "close response body: %w"            (line 261)
  | finalSizeMismatch     -- "expected final size…"               (line 266)
  deriving Repr, DecidableEq

/-- The two error kinds that are routed through `fnRetryOrErr` in
`downloadImpl`: the failure of `http.DefaultClient.Do` (line 192) and a read
error from `io.Copy` (line 256).  Every other error is returned directly. -/
def retryableKind : dlError → Bool
  | .transport => true
  | .readErr => true
  | _ => false

/-- Mirror of `parseCanResume`: `h.Get("Accept-Ranges") == "bytes"` (`Get`
yields "" when the header is absent). -/
def parseCanResume (acceptRanges : Option String) : Bool :=
  acceptRanges.getD "" = "bytes"

/-- Character-list helper for `parseInt64`: the value of a non-empty string
of ASCII digits, `none` if empty or any character is not a digit. -/
def digitsValue : List Char → Option Nat
  | [] => none
  | cs =>
    cs.foldl (fun acc c =>
      match acc with
      | none => none
      | some n => if c.isDigit then some (n * 10 + (c.toNat - 48)) else none)
      (some 0)

/-- Model of Go's `strconv.ParseInt(s, 10, 64)`: an optional sign followed by
at least one decimal digit, with the value required to fit in a signed 64-bit
integer; everything else is an error (`none`). -/
def parseInt64 (s : String) : Option Int :=
  match s.data with
  | [] => none
  | '+' :: rest =>
    (digitsValue rest).bind fun n =>
      if (n : Int) ≤ 2 ^ 63 - 1 then some (n : Int) else none
  | '-' :: rest =>
    (digitsValue rest).bind fun n =>
      if (n : Int) ≤ 2 ^ 63 then some (-(n : Int)) else none
  | _ =>
    (digitsValue s.data).bind fun n =>
      if (n : Int) ≤ 2 ^ 63 - 1 then some (n : Int) else none

/-- Mirror of `parseContentLength` (`modtime.go`, lines 341–351): `-1` when
the header is absent, empty, or does not parse as a base-10 `int64`. -/
def parseContentLength (contentLength : Option String) : Int :=
  match contentLength with
  | none => -1
  | some raw => if raw.length = 0 then -1 else (parseInt64 raw).getD (-1)

/-- Outcome of handling a single successful `Do` (one `httpResp`) inside
`downloadImpl`: a fatal error returned directly, a retryable error handed to
`fnRetryOrErr`, or a successful `return nil`.  Each constructor carries the
context and temporary-file length at that point; `retry` also carries the
updated `canResume` flag, which the Go closure reads back from the enclosing
scope when it re-enters `downloadImpl`. -/
inductive stepResult where
  | fatal (e : dlError) (dc : downloadContext) (fileLen : Nat)
  | retry (e : dlError) (dc : downloadContext) (fileLen : Nat) (canResume : Bool)
  | success (dc : downloadContext) (fileLen : Nat)
  deriving Repr, DecidableEq

/-- Context carried by a `stepResult`. -/
def stepResult.ctx : stepResult → downloadContext
  | .fatal _ dc _ => dc
  | .retry _ dc _ _ => dc
  | .success dc _ => dc

/-- Temporary-file length carried by a `stepResult`. -/
def stepResult.flen : stepResult → Nat
  | .fatal _ _ fl => fl
  | .retry _ _ fl _ => fl
  | .success _ fl => fl

/-- Error kind carried by a `stepResult`, if any. -/
def stepResult.errKind : stepResult → Option dlError
  | .fatal e _ _ => some e
  | .retry e _ _ _ => some e
  | .success _ _ => none

/-- Stage 4 of one attempt (`modtime.go`, lines 248–269): stream the body into
the temporary file (`io.Copy`), tallying `bytesRead`; on a read error hand the
error to the retry path; otherwise close the body (an error there is fatal)
and check the final size: fatal if `ExpectedSize > 0` and `bytesRead`
differs. -/
def respBody (dc : downloadContext) (fileLen : Nat) (canResume : Bool)
    (r : httpResp) : stepResult :=
  match r.body with
  | .readErr n =>
    .retry .readErr { dc with bytesRead := dc.bytesRead + n } (fileLen + n) canResume
  | .eof n =>
    let dc := { dc with bytesRead := dc.bytesRead + n }
    let fileLen := fileLen + n
    if r.closeBodyFails then .fatal .closeBodyErr dc fileLen
    else if 0 < dc.opts.expectedSize ∧ (dc.bytesRead : Int) ≠ dc.opts.expectedSize then
      .fatal .finalSizeMismatch dc fileLen
    else .success dc fileLen

/-- Stage 3 of one attempt (`modtime.go`, lines 239–246): the `Last-Modified`
check.  A parsed value (`mt ≠ 0`) is adopted when none was expected, and is
fatal when it disagrees with a non-zero expectation. -/
def respLastModified (dc : downloadContext) (fileLen : Nat) (canResume : Bool)
    (r : httpResp) : stepResult :=
  let mt := r.lastModifiedMin
  if mt ≠ 0 then
    if dc.opts.expectedLastModified = 0 then
      respBody { dc with opts := { dc.opts with expectedLastModified := mt } }
        fileLen canResume r
    else if mt ≠ dc.opts.expectedLastModified then .fatal .lmMismatch dc fileLen
    else respBody dc fileLen canResume r
  else respBody dc fileLen canResume r

/-- Stage 2 of one attempt (`modtime.go`, lines 220–237): the `Content-Length`
validation.  Everything here is guarded by `cl > 0`: an absent, unparseable,
zero or negative `Content-Length` neither validates nor updates anything. -/
def respContentLength (dc : downloadContext) (fileLen : Nat) (canResume : Bool)
    (r : httpResp) : stepResult :=
  let cl := parseContentLength r.contentLength
  if 0 < cl then
    if canResume then
      if 0 < dc.opts.expectedSize then
        if cl ≠ dc.opts.expectedSize - (dc.bytesRead : Int) then
          .fatal .clMismatchResume dc fileLen
        else respLastModified dc fileLen canResume r
      else
        respLastModified
          { dc with opts := { dc.opts with expectedSize := (dc.bytesRead : Int) + cl } }
          fileLen canResume r
    else
      if 0 < dc.opts.expectedSize ∧ cl ≠ dc.opts.expectedSize then
        .fatal .clMismatch dc fileLen
      else
        respLastModified { dc with opts := { dc.opts with expectedSize := cl } }
          fileLen canResume r
  else respLastModified dc fileLen canResume r

/-- Stage 1 of one attempt (`modtime.go`, lines 198–218): update `canResume`
from `Accept-Ranges` (only when not already known to be true), and if bytes
were previously read but resuming is impossible, seek to the start and
truncate the temporary file, resetting `bytesRead` (failures of seek/truncate
are fatal). -/
def processResp (dc : downloadContext) (fileLen : Nat) (canResume : Bool)
    (r : httpResp) : stepResult :=
  let canResume := if canResume then true else parseCanResume r.acceptRanges
  if ¬canResume ∧ 0 < dc.bytesRead then
    if r.seekFails then .fatal .seekErr dc fileLen
    else if r.truncateFails then .fatal .truncateErr dc fileLen
    else respContentLength { dc with bytesRead := 0 } 0 canResume r
  else respContentLength dc fileLen canResume r

/-- Result of `downloadImpl` on a scripted environment.  `ok`/`err` carry the
final context, temporary-file length, and the unconsumed tail of the script;
`needMore` is the modelling artifact for a script that ended while the Go code
would have issued another HTTP request. -/
inductive implResult where
  | ok (dc : downloadContext) (fileLen : Nat) (rest : List attempt)
  | err (e : dlError) (dc : downloadContext) (fileLen : Nat) (rest : List attempt)
  | needMore (dc : downloadContext) (fileLen : Nat)
  deriving Repr, DecidableEq

/-- Mirror of `downloadContext.downloadImpl` (`modtime.go`, lines 134–270).
`urlOk` says whether `http.NewRequest` succeeds for the context's URL (it is
determined by the URL alone, hence constant across attempts).  Each HTTP
attempt consumes the head of `env`.  The retry policy is the Go
`fnRetryOrErr` closure, inlined at its two call sites: increment `curRetry`;
if `MaxRetry > 0 && curRetry >= MaxRetry` return the error, else recurse
(the model drops the `backoff` sleep, which has no effect on the state). -/
def downloadImpl (urlOk : Bool) (dc : downloadContext) (fileLen : Nat)
    (canResume : Bool) (env : List attempt) : implResult :=
    if 0 < dc.opts.maxRetry ∧ dc.opts.maxRetry ≤ dc.curRetry then
      .err .maxRetries dc fileLen env
    else if ¬urlOk then .err .createRequest dc fileLen env
    else
      match env with
      | [] => .needMore dc fileLen
      | .transport :: rest =>
        let dc' := { dc with curRetry := dc.curRetry + 1 }
        if 0 < dc'.opts.maxRetry ∧ dc'.opts.maxRetry ≤ dc'.curRetry then
          .err .transport dc' fileLen rest
        else downloadImpl urlOk dc' fileLen canResume rest
      | .resp r :: rest =>
        match processResp dc fileLen canResume r with
        | .fatal e dc' fl' => .err e dc' fl' rest
        | .success dc' fl' => .ok dc' fl' rest
        | .retry e dc' fl' canResume' =>
          let dc'' := { dc' with curRetry := dc'.curRetry + 1 }
          if 0 < dc''.opts.maxRetry ∧ dc''.opts.maxRetry ≤ dc''.curRetry then
            .err e dc'' fl' rest
          else downloadImpl urlOk dc'' fl' canResume' rest
  termination_by structural env

/-- The non-`downloadImpl` failures of `DownloadToFile`: creating the
temporary file, closing it, the atomic replace, and stamping the mtime. -/
structure fsEnv where
  createFails : Bool
  closeFails : Bool
  replaceFails : Bool
  setTimeFails : Bool
  deriving Repr, DecidableEq

/-- Errors `DownloadToFile` can return. -/
inductive downloadErr where
  | createFile            -- "create file: %w"
  | impl (e : dlError)    -- an error from downloadImpl, returned as-is
  | closeFile             -- "close file: %w"
  | move                  -- "move: %w"
  | setTime               -- "set time failed: %w"
  | envExhausted          -- modelling artifact: the script ran out
  deriving Repr, DecidableEq

/-- State of the final path after a run: its length in bytes and its
modification time. -/
structure finalFile where
  len : Nat
  mtime : Nat
  deriving Repr, DecidableEq

/-- The `DownloadResults` record built from a finished context
(`modtime.go`, lines 100–103). -/
def mkResults (dc : downloadContext) : DownloadResults :=
  { expectedSize := dc.opts.expectedSize
    actualSize := dc.bytesRead
    lastModified := dc.opts.expectedLastModified
    retries := dc.curRetry }

/-- Mirror of `DownloadToFile` (`modtime.go`, lines 56–124).  `prevMtime` is
the modification time the final path would keep if not restamped: `os.Chtimes`
leaves a time unchanged when handed the zero instant, which is how
`modifyFileTime` behaves when no `Last-Modified` was ever resolved.  On
success the returned `finalFile` describes the published final path: the
temporary file's bytes moved there by `atomic.ReplaceFile`, stamped with the
resolved last-modified instant. -/
def DownloadToFile (opts : DownloadOptions) (urlOk : Bool) (fs : fsEnv)
    (env : List attempt) (prevMtime : Nat) :
    DownloadResults × Except downloadErr finalFile :=
  let res0 : DownloadResults :=
    { expectedSize := opts.expectedSize, actualSize := 0,
      lastModified := opts.expectedLastModified, retries := 0 }
  if fs.createFails then (res0, .error .createFile)
  else
    match downloadImpl urlOk { opts := opts, bytesRead := 0, curRetry := 0 } 0 false env with
    | .needMore dc _ => (mkResults dc, .error .envExhausted)
    | .err e dc _ _ => (mkResults dc, .error (.impl e))
    | .ok dc fl _ =>
      let res := mkResults dc
      if fs.closeFails then (res, .error .closeFile)
      else if fs.replaceFails then (res, .error .move)
      else if fs.setTimeFails then (res, .error .setTime)
      else
        (res, .ok { len := fl,
                    mtime := if res.lastModified ≠ 0 then res.lastModified else prevMtime })

/-- The loop of `intPow`: `result *= base` when the low bit of `exp` is
set, then shift `exp` right, stopping when it reaches zero (and squaring
`base` otherwise). -/
def intPowLoop (base exp result : Nat) : Nat :=
  let result' := if exp % 2 = 1 then result * base else result
  let exp' := exp / 2
  if exp' = 0 then result'
  else intPowLoop (base * base) exp' result'
  termination_by exp
  decreasing_by simp_wf; omega

/-- Mirror of `intPow` (`modtime.go`, lines 318–331), the
square-and-multiply loop, at type `Nat` (the call site instantiates it at
`uint64`; no intermediate value approaches `2^64` for exponents ≤ 10). -/
def intPow (base exp : Nat) : Nat :=
  intPowLoop base exp 1

/-- Base milliseconds of `backoff` (`modtime.go`, lines 307–312):
`500 * 2^min(curRetry, 10)` via `intPow`. -/
def backoffBaseMs (curRetry : Nat) : Nat :=
  intPow 2 (if 10 < curRetry then 10 else curRetry) * 500

/-- Mirror of `backoff` (`modtime.go`, lines 307–315), in milliseconds.
`jitter` is the value drawn from `rand.Int63n(ms / 10)`, which the Go runtime
guarantees to lie in `[0, ms / 10)`; theorems take that bound as a
hypothesis. -/
def backoff (curRetry jitter : Nat) : Nat :=
  backoffBaseMs curRetry + jitter

/-! ## Auxiliary notions used by the theorems -/

/-- Postcondition of Go's `sort.Slice(locals, …SortName < SortName…)`:
no later element is strictly below an earlier one. -/
def localsSorted (ls : List LocalFile) : Prop :=
  List.Pairwise (fun a b => goStringLt b.sortName a.sortName = false) ls

/-- Postcondition of Go's `sort.Slice(remotes, …SortName < SortName…)`. -/
def remotesSorted (rs : List RemoteFile) : Prop :=
  List.Pairwise (fun a b => goStringLt b.sortName a.sortName = false) rs

/-- Rewrite the HTTP status of a scripted attempt. -/
def setStatus (f : Nat → Nat) : attempt → attempt
  | .transport => .transport
  | .resp r => .resp { r with status := f r.status }

/-- Apply a function to the unconsumed script of an `implResult`. -/
def implResult.mapRest (g : List attempt → List attempt) : implResult → implResult
  | .ok dc fl rest => .ok dc fl (g rest)
  | .err e dc fl rest => .err e dc fl (g rest)
  | .needMore dc fl => .needMore dc fl

/-- Context carried by an `implResult`. -/
def implResult.ctx : implResult → downloadContext
  | .ok dc _ _ => dc
  | .err _ dc _ _ => dc
  | .needMore dc _ => dc

/-- A scripted attempt that is guaranteed to end in a retryable failure:
either the request itself fails, or the response carries no
`Content-Length`/`Last-Modified` headers, its local file operations succeed,
and its body read fails partway. -/
def retryScripted : attempt → Bool
  | .transport => true
  | .resp r =>
    match r.body with
    | .readErr _ =>
      r.contentLength = none ∧ r.lastModifiedMin = 0 ∧
        r.seekFails = false ∧ r.truncateFails = false
    | .eof _ => false

/-! ## Order facts for the merge key -/

theorem goCharsLt_irrefl (cs : List Char) : goCharsLt cs cs = false := by
  induction cs with
  | nil => rfl
  | cons c cs ih => simp [goCharsLt, ih]

theorem goCharsLt_antisymm : ∀ as bs : List Char,
    goCharsLt as bs = false → goCharsLt bs as = false → as = bs := by
  intro as
  induction as with
  | nil =>
    intro bs h1 _
    cases bs with
    | nil => rfl
    | cons b bs => simp [goCharsLt] at h1
  | cons a as ih =>
    intro bs h1 h2
    cases bs with
    | nil => simp [goCharsLt] at h2
    | cons b bs =>
      simp only [goCharsLt] at h1 h2
      rcases lt_trichotomy a b with hab | hab | hab
      · simp [hab] at h1
      · subst hab
        simp only [lt_irrefl, if_false] at h1 h2
        exact congrArg (a :: ·) (ih bs h1 h2)
      · simp [hab, lt_asymm hab] at h2

theorem goStringLt_irrefl (s : String) : goStringLt s s = false :=
  goCharsLt_irrefl s.data

theorem goStringLt_antisymm {a b : String} (h1 : goStringLt a b = false)
    (h2 : goStringLt b a = false) : a = b := by
  cases a with
  | mk as =>
    cases b with
    | mk bs => exact congrArg String.mk (goCharsLt_antisymm as bs h1 h2)

/-- Strings related by `<` are distinct. -/
theorem goStringLt_ne {a b : String} (h : goStringLt a b = true) : a ≠ b := by
  intro he
  subst he
  rw [goStringLt_irrefl] at h
  exact Bool.false_ne_true h

/-! ## Recursion lemmas for matchedCount -/

theorem matchedCount_nil_left (rs : List RemoteFile) : matchedCount [] rs = 0 := by
  simp [matchedCount]

theorem matchedCount_nil_right (ls : List LocalFile) : matchedCount ls [] = 0 := by
  simp [matchedCount]

theorem matchedCount_cons_left (l : LocalFile) (ls : List LocalFile)
    (rs : List RemoteFile) (h : l.sortName ∉ rs.map RemoteFile.sortName) :
    matchedCount (l :: ls) rs = matchedCount ls rs := by
  unfold matchedCount
  rw [List.map_cons, ← Multiset.cons_coe, Multiset.cons_inter_of_neg]
  simpa using h

theorem matchedCount_cons_right (l : List LocalFile) (r : RemoteFile)
    (rs : List RemoteFile) (h : r.sortName ∉ l.map LocalFile.sortName) :
    matchedCount l (r :: rs) = matchedCount l rs := by
  unfold matchedCount
  rw [List.map_cons, ← Multiset.cons_coe, Multiset.inter_comm, Multiset.cons_inter_of_neg,
    Multiset.inter_comm]
  simpa using h

theorem matchedCount_cons_both (l : LocalFile) (ls : List LocalFile) (r : RemoteFile)
    (rs : List RemoteFile) (h : l.sortName = r.sortName) :
    matchedCount (l :: ls) (r :: rs) = matchedCount ls rs + 1 := by
  unfold matchedCount
  rw [List.map_cons, List.map_cons, ← Multiset.cons_coe, ← Multiset.cons_coe,
    Multiset.cons_inter_of_pos]
  · rw [h, Multiset.erase_cons_head, Multiset.card_cons]
  · rw [h]
    exact Multiset.mem_cons_self _ _

theorem localsSorted_cons {l : LocalFile} {ls : List LocalFile}
    (h : localsSorted (l :: ls)) :
    localsSorted ls ∧ ∀ x ∈ ls, goStringLt x.sortName l.sortName = false := by
  rw [localsSorted, List.pairwise_cons] at h
  exact ⟨h.2, h.1⟩

theorem remotesSorted_cons {r : RemoteFile} {rs : List RemoteFile}
    (h : remotesSorted (r :: rs)) :
    remotesSorted rs ∧ ∀ x ∈ rs, goStringLt x.sortName r.sortName = false := by
  rw [remotesSorted, List.pairwise_cons] at h
  exact ⟨h.2, h.1⟩

theorem diff_partition_aux : ∀ (n : Nat) (ls : List LocalFile) (rs : List RemoteFile),
    ls.length + rs.length ≤ n → localsSorted ls → remotesSorted rs →
    (diffSortedFiles ls rs).1.length + matchedCount ls rs = ls.length ∧
    (diffSortedFiles ls rs).2.1.length + matchedCount ls rs = rs.length ∧
    ∀ r ∈ (diffSortedFiles ls rs).2.2, r ∈ rs ∧ ∃ l ∈ ls, l.sortName = r.sortName := by
  intro n
  induction n with
  | zero =>
    intro ls rs hlen _ _
    have hls : ls = [] := by
      cases ls with
      | nil => rfl
      | cons a as => simp at hlen
    have hrs : rs = [] := by
      cases rs with
      | nil => rfl
      | cons a as => simp at hlen
    subst hls; subst hrs
    simp [diffSortedFiles, matchedCount_nil_left]
  | succ n ih =>
    intro ls rs hlen hsl hsr
    cases ls with
    | nil =>
      simp [diffSortedFiles, matchedCount_nil_left]
    | cons l ls =>
      cases rs with
      | nil =>
        simp [diffSortedFiles, matchedCount_nil_right]
      | cons r rs =>
        obtain ⟨hsl', hlub⟩ := localsSorted_cons hsl
        obtain ⟨hsr', hrub⟩ := remotesSorted_cons hsr
        by_cases h1 : goStringLt l.sortName r.sortName = true
        · -- local < remote: l goes to extra
          have hnm : l.sortName ∉ (r :: rs).map RemoteFile.sortName := by
            intro hm
            rcases List.mem_map.mp hm with ⟨x, hx, hxeq⟩
            rcases List.mem_cons.mp hx with hx | hx
            · subst hx
              rw [hxeq, goStringLt_irrefl] at h1
              exact Bool.false_ne_true h1
            · have hu := hrub x hx
              rw [hxeq, h1] at hu
              simp at hu
          obtain ⟨⟨e, m, c⟩, hd⟩ : ∃ t, diffSortedFiles ls (r :: rs) = t := ⟨_, rfl⟩
          have hrec := ih ls (r :: rs) (by simp at hlen ⊢; omega) hsl' hsr
          rw [hd] at hrec
          have hunf : diffSortedFiles (l :: ls) (r :: rs) = (l :: e, m, c) := by
            simp only [diffSortedFiles, h1, if_true, hd]
          rw [hunf, matchedCount_cons_left l ls (r :: rs) hnm]
          obtain ⟨hr1, hr2, hr3⟩ := hrec
          refine ⟨?_, ?_, ?_⟩
          · simp only [List.length_cons] at hr1 ⊢
            omega
          · exact hr2
          · intro r' hr'
            obtain ⟨hmem, l', hl', heq⟩ := hr3 r' hr'
            exact ⟨hmem, l', List.mem_cons_of_mem _ hl', heq⟩
        · by_cases h2 : goStringLt r.sortName l.sortName = true
          · -- remote < local: r goes to missing
            have hnm : r.sortName ∉ (l :: ls).map LocalFile.sortName := by
              intro hm
              rcases List.mem_map.mp hm with ⟨x, hx, hxeq⟩
              rcases List.mem_cons.mp hx with hx | hx
              · subst hx
                rw [hxeq, goStringLt_irrefl] at h2
                exact Bool.false_ne_true h2
              · have hu := hlub x hx
                rw [hxeq, h2] at hu
                simp at hu
            obtain ⟨⟨e, m, c⟩, hd⟩ : ∃ t, diffSortedFiles (l :: ls) rs = t := ⟨_, rfl⟩
            have hrec := ih (l :: ls) rs (by simp at hlen ⊢; omega) hsl hsr'
            rw [hd] at hrec
            have hunf : diffSortedFiles (l :: ls) (r :: rs) = (e, r :: m, c) := by
              simp only [diffSortedFiles, h1, h2, if_true, if_false, Bool.false_eq_true, hd]
            rw [hunf, matchedCount_cons_right (l :: ls) r rs hnm]
            obtain ⟨hr1, hr2, hr3⟩ := hrec
            refine ⟨hr1, ?_, ?_⟩
            · simp only [List.length_cons] at hr2 ⊢
              omega
            · intro r' hr'
              obtain ⟨hmem, l', hl', heq⟩ := hr3 r' hr'
              exact ⟨List.mem_cons_of_mem _ hmem, l', hl', heq⟩
          · -- equal sort names
            have hb1 : goStringLt l.sortName r.sortName = false := by
              cases hx : goStringLt l.sortName r.sortName with
              | true => exact absurd hx h1
              | false => rfl
            have hb2 : goStringLt r.sortName l.sortName = false := by
              cases hx : goStringLt r.sortName l.sortName with
              | true => exact absurd hx h2
              | false => rfl
            have heq : l.sortName = r.sortName := goStringLt_antisymm hb1 hb2
            obtain ⟨⟨e, m, c⟩, hd⟩ : ∃ t, diffSortedFiles ls rs = t := ⟨_, rfl⟩
            have hrec := ih ls rs (by simp at hlen ⊢; omega) hsl' hsr'
            rw [hd] at hrec
            obtain ⟨hr1, hr2, hr3⟩ := hrec
            have hmc := matchedCount_cons_both l ls r rs heq
            have hmemgoal : ∀ r' ∈ c, r' ∈ r :: rs ∧ ∃ l' ∈ l :: ls, l'.sortName = r'.sortName := by
              intro r' hr'
              obtain ⟨hmem, l', hl', heq'⟩ := hr3 r' hr'
              exact ⟨List.mem_cons_of_mem _ hmem, l', List.mem_cons_of_mem _ hl', heq'⟩
            by_cases hch : l.timestamp ≠ r.timestamp ∨ l.size ≠ r.size
            · have hunf : diffSortedFiles (l :: ls) (r :: rs) = (e, m, r :: c) := by
                simp only [diffSortedFiles, hb1, hb2, Bool.false_eq_true, if_false, hd]
                simp [hch]
              rw [hunf, hmc]
              refine ⟨?_, ?_, ?_⟩
              · simp only [List.length_cons] at hr1 ⊢
                omega
              · simp only [List.length_cons] at hr2 ⊢
                omega
              · intro r' hr'
                rcases List.mem_cons.mp hr' with hr' | hr'
                · subst hr'
                  exact ⟨List.mem_cons_self _ _, l, List.mem_cons_self _ _, heq⟩
                · exact hmemgoal r' hr'
            · have hunf : diffSortedFiles (l :: ls) (r :: rs) = (e, m, c) := by
                simp only [diffSortedFiles, hb1, hb2, Bool.false_eq_true, if_false, hd]
                simp [hch]
              rw [hunf, hmc]
              refine ⟨?_, ?_, ?_⟩
              · simp only [List.length_cons] at hr1 ⊢
                omega
              · simp only [List.length_cons] at hr2 ⊢
                omega
              · exact hmemgoal

/-- C8: for every pair of input listings sorted ascending by `sort_name`, the
diff engine's three output lists partition both inputs: |extra| plus the
number of equal-`sort_name` pairs equals |locals|, |missing| plus the number
of equal-`sort_name` pairs equals |remotes|, and every element of `changed`
is one of the equal-`sort_name` pairs (a remote file that has an
equal-`sort_name` local partner). -/
theorem diffSortedFiles_partitions_inputs (ls : List LocalFile) (rs : List RemoteFile)
    (hl : localsSorted ls) (hr : remotesSorted rs) :
    (diffSortedFiles ls rs).1.length + matchedCount ls rs = ls.length ∧
    (diffSortedFiles ls rs).2.1.length + matchedCount ls rs = rs.length ∧
    ∀ r ∈ (diffSortedFiles ls rs).2.2, r ∈ rs ∧ ∃ l ∈ ls, l.sortName = r.sortName :=
  diff_partition_aux (ls.length + rs.length) ls rs le_rfl hl hr

/-- Witness for C8 at a concrete pair of sorted listings (one matched pair
changed, one extra local, one missing remote). -/
theorem diffSortedFiles_partitions_inputs_witness :
    localsSorted ([⟨"foo", "foo", 1, 10⟩, ⟨"pool", "pool", 2, 20⟩,
      ⟨"stand", "stand", 3, 30⟩] : List LocalFile) ∧
    remotesSorted ([⟨"foo", "foo", "uf", 1, 10⟩, ⟨"pool", "pool", "up", 9, 20⟩,
      ⟨"zero", "zero", "uz", 4, 7⟩] : List RemoteFile) ∧
    ((diffSortedFiles
        [⟨"foo", "foo", 1, 10⟩, ⟨"pool", "pool", 2, 20⟩, ⟨"stand", "stand", 3, 30⟩]
        [⟨"foo", "foo", "uf", 1, 10⟩, ⟨"pool", "pool", "up", 9, 20⟩,
          ⟨"zero", "zero", "uz", 4, 7⟩]).1.length +
      matchedCount
        [⟨"foo", "foo", 1, 10⟩, ⟨"pool", "pool", 2, 20⟩, ⟨"stand", "stand", 3, 30⟩]
        [⟨"foo", "foo", "uf", 1, 10⟩, ⟨"pool", "pool", "up", 9, 20⟩,
          ⟨"zero", "zero", "uz", 4, 7⟩] = 3 ∧
     (diffSortedFiles
        [⟨"foo", "foo", 1, 10⟩, ⟨"pool", "pool", 2, 20⟩, ⟨"stand", "stand", 3, 30⟩]
        [⟨"foo", "foo", "uf", 1, 10⟩, ⟨"pool", "pool", "up", 9, 20⟩,
          ⟨"zero", "zero", "uz", 4, 7⟩]).2.1.length +
      matchedCount
        [⟨"foo", "foo", 1, 10⟩, ⟨"pool", "pool", 2, 20⟩, ⟨"stand", "stand", 3, 30⟩]
        [⟨"foo", "foo", "uf", 1, 10⟩, ⟨"pool", "pool", "up", 9, 20⟩,
          ⟨"zero", "zero", "uz", 4, 7⟩] = 3 ∧
     ∀ r ∈ (diffSortedFiles
        [⟨"foo", "foo", 1, 10⟩, ⟨"pool", "pool", 2, 20⟩, ⟨"stand", "stand", 3, 30⟩]
        [⟨"foo", "foo", "uf", 1, 10⟩, ⟨"pool", "pool", "up", 9, 20⟩,
          ⟨"zero", "zero", "uz", 4, 7⟩]).2.2,
       r ∈ ([⟨"foo", "foo", "uf", 1, 10⟩, ⟨"pool", "pool", "up", 9, 20⟩,
          ⟨"zero", "zero", "uz", 4, 7⟩] : List RemoteFile) ∧
       ∃ l ∈ ([⟨"foo", "foo", 1, 10⟩, ⟨"pool", "pool", 2, 20⟩,
          ⟨"stand", "stand", 3, 30⟩] : List LocalFile), l.sortName = r.sortName) :=
  ⟨by unfold localsSorted; decide, by unfold remotesSorted; decide,
    diffSortedFiles_partitions_inputs _ _ (by unfold localsSorted; decide)
      (by unfold remotesSorted; decide)⟩

/-! ## Backoff arithmetic -/

theorem intPowLoop_eq : ∀ (e b r : Nat), intPowLoop b e r = r * b ^ e := by
  intro e
  induction e using Nat.strong_induction_on with
  | _ e ih =>
    intro b r
    by_cases h0 : e / 2 = 0
    · have he : e = 0 ∨ e = 1 := by omega
      rcases he with he | he <;> subst he <;> simp [intPowLoop]
    · have hstep : intPowLoop b e r =
          intPowLoop (b * b) (e / 2) (if e % 2 = 1 then r * b else r) := by
        rw [intPowLoop]
        simp [h0]
      rw [hstep, ih (e / 2) (by omega) (b * b) (if e % 2 = 1 then r * b else r)]
      rcases Nat.mod_two_eq_zero_or_one e with h1 | h1
      · rw [if_neg (by omega)]
        rw [show b * b = b ^ 2 by ring, ← pow_mul, show 2 * (e / 2) = e by omega]
      · rw [if_pos h1]
        rw [show b * b = b ^ 2 by ring, ← pow_mul]
        rw [show r * b * (b ^ (2 * (e / 2))) = r * b ^ (2 * (e / 2) + 1) by ring]
        rw [show 2 * (e / 2) + 1 = e by omega]

theorem intPow_two_pow (e : Nat) : intPow 2 e = 2 ^ e := by
  unfold intPow
  rw [intPowLoop_eq, one_mul]

theorem backoffBaseMs_eq (k : Nat) : backoffBaseMs k = 500 * 2 ^ min k 10 := by
  unfold backoffBaseMs
  by_cases h : 10 < k
  · rw [if_pos h, intPow_two_pow, Nat.min_eq_right (Nat.le_of_lt h), Nat.mul_comm]
  · rw [if_neg h, intPow_two_pow, Nat.min_eq_left (by omega), Nat.mul_comm]

/-- C7: for every retry count `k` and every jitter value the runtime can draw
(`rand.Int63n(ms/10)` yields a value in `[0, ms/10)`), the duration returned
by `backoff` lies in the half-open interval
`[500·2^min(k,10), 500·2^min(k,10) + (500·2^min(k,10))/10)` milliseconds; in
particular it is at least the base, strictly less than 1.1 times the base
(stated integrally as `10·s < 11·base`), and the base never exceeds
512000 ms = 512 s. -/
theorem backoff_bounds (k j : Nat) (h : j < backoffBaseMs k / 10) :
    500 * 2 ^ min k 10 ≤ backoff k j ∧
    backoff k j < 500 * 2 ^ min k 10 + 500 * 2 ^ min k 10 / 10 ∧
    10 * backoff k j < 11 * (500 * 2 ^ min k 10) ∧
    500 * 2 ^ min k 10 ≤ 512000 := by
  unfold backoff
  rw [backoffBaseMs_eq] at h ⊢
  have h1 : 1 ≤ 2 ^ min k 10 := Nat.one_le_two_pow
  have h2 : 2 ^ min k 10 ≤ 1024 := by
    calc 2 ^ min k 10 ≤ 2 ^ 10 := Nat.pow_le_pow_right (by norm_num) (min_le_right _ _)
    _ = 1024 := by norm_num
  generalize 2 ^ min k 10 = m at h h1 h2 ⊢
  omega

/-- Witness for C7 at `k = 11`, `j = 0` (the exponent caps at 10; the base is
512 s there). -/
theorem backoff_bounds_witness :
    0 < backoffBaseMs 11 / 10 ∧
    (500 * 2 ^ min 11 10 ≤ backoff 11 0 ∧
     backoff 11 0 < 500 * 2 ^ min 11 10 + 500 * 2 ^ min 11 10 / 10 ∧
     10 * backoff 11 0 < 11 * (500 * 2 ^ min 11 10) ∧
     500 * 2 ^ min 11 10 ≤ 512000) :=
  ⟨by rw [backoffBaseMs_eq]; norm_num, backoff_bounds 11 0 (by rw [backoffBaseMs_eq]; norm_num)⟩

/-- C1 (code bug): at the repository's own test input
`Test_DiffFiles/"single file no remote size"` — one local file and one remote
file with equal `sort_name` and equal mtimes, the local size `1234` and the
remote size the `-1` "unknown" sentinel — the diff engine of `mainExit`
classifies the pair as changed, because the change test at
`cmd/needl/main.go:225` compares sizes without checking the sentinel.  The
claim (and the repository's test) require `changed = []` here. -/
theorem diffSortedFiles_size_sentinel_failing_input :
    diffSortedFiles [⟨"foo", "foo", 1, 1234⟩] [⟨"foo", "foo", "u", 1, -1⟩] =
      ([], [], [⟨"foo", "foo", "u", 1, -1⟩]) := by
  simp [diffSortedFiles]
  decide

/-- C2 (code bug): a remote file whose mtime is the zero instant ("time
unknown", here `0`) paired with an equal-`sort_name`, equal-size local file
whose mtime is non-zero is classified as changed by the diff engine of
`mainExit`: the change test at `cmd/needl/main.go:225` compares the
timestamps without checking the zero sentinel that `scraper.RemoteFile`
documents ("zero if unknown").  The claim requires `changed = []` here. -/
theorem diffSortedFiles_zero_mtime_failing_input :
    diffSortedFiles [⟨"foo", "foo", 5, 10⟩] [⟨"foo", "foo", "u", 0, 10⟩] =
      ([], [], [⟨"foo", "foo", "u", 0, 10⟩]) := by
  simp [diffSortedFiles]
  decide

/-- Counterexample to C9: a body whose first line is empty and whose first
NON-empty line is `<html>` is rejected by `readType` (the Go code scans only
the very first line), while the claim says such a body selects the
simple-variant parse. -/
theorem readType_first_nonempty_line_cex :
    firstNonEmptyLine ["", "<html>"] = some "<html>" ∧
    goStartsWith "<html>" "<html>" = true ∧
    readType ["", "<html>"] = none := by
  decide

/-- C9 (amended): the listing parser selects the variant from the first line
of the body, whitespace-trimmed: a first line beginning with
`<!DOCTYPE html>` yields the full-variant parse, one beginning with `<html>`
yields the simple-variant parse, and any other first line — including an
empty or all-whitespace one, even when a later line carries a variant
marker — or an empty body yields a parse error. -/
theorem readType_first_line_dispatch (l : String) (rest : List String) :
    (goStartsWith (goTrimSpace l) "<!DOCTYPE html>" = true →
      readType (l :: rest) = some .adostFull) ∧
    (goStartsWith (goTrimSpace l) "<!DOCTYPE html>" = false →
      goStartsWith (goTrimSpace l) "<html>" = true →
      readType (l :: rest) = some .adostSimple) ∧
    (goStartsWith (goTrimSpace l) "<!DOCTYPE html>" = false →
      goStartsWith (goTrimSpace l) "<html>" = false →
      readType (l :: rest) = none) ∧
    readType [] = none := by
  refine ⟨fun h1 => ?_, fun h1 h2 => ?_, fun h1 h2 => ?_, rfl⟩ <;>
    simp [readType, h1]
  · simp [h2]
  · simp [h2]

/-- Witness for C9's amended dispatch rule on a concrete simple-variant first
line (with leading whitespace and a decoy later line). -/
theorem readType_first_line_dispatch_witness :
    readType ["  <html><head>", "<!DOCTYPE html>"] = some .adostSimple :=
  (readType_first_line_dispatch "  <html><head>" ["<!DOCTYPE html>"]).2.1
    (by decide) (by decide)

/-! ## One-attempt lemmas for the download engine -/

theorem respBody_inv (dc : downloadContext) (fl : Nat) (cr : Bool) (r : httpResp)
    (hfl : fl = dc.bytesRead) :
    (respBody dc fl cr r).flen = (respBody dc fl cr r).ctx.bytesRead ∧
    (respBody dc fl cr r).ctx.curRetry = dc.curRetry ∧
    (respBody dc fl cr r).ctx.opts = dc.opts := by
  unfold respBody
  cases r.body with
  | readErr n => simp [stepResult.ctx, stepResult.flen, hfl]
  | eof n =>
    by_cases h1 : r.closeBodyFails
    · simp [h1, stepResult.ctx, stepResult.flen, hfl]
    · simp only [h1, Bool.false_eq_true, if_false]
      split <;> simp_all [stepResult.ctx, stepResult.flen]

theorem respLastModified_inv (dc : downloadContext) (fl : Nat) (cr : Bool) (r : httpResp)
    (hfl : fl = dc.bytesRead) :
    (respLastModified dc fl cr r).flen = (respLastModified dc fl cr r).ctx.bytesRead ∧
    (respLastModified dc fl cr r).ctx.curRetry = dc.curRetry ∧
    (respLastModified dc fl cr r).ctx.opts.maxRetry = dc.opts.maxRetry ∧
    (respLastModified dc fl cr r).ctx.opts.expectedSize = dc.opts.expectedSize ∧
    (dc.opts.expectedLastModified ≠ 0 →
      (respLastModified dc fl cr r).ctx.opts.expectedLastModified =
        dc.opts.expectedLastModified) := by
  simp only [respLastModified]
  split_ifs with h1 h2 h3
  · have hb := respBody_inv
      { dc with opts := { dc.opts with expectedLastModified := r.lastModifiedMin } }
      fl cr r hfl
    refine ⟨hb.1, hb.2.1, ?_, ?_, fun hlm => absurd h2 hlm⟩
    · rw [hb.2.2]
    · rw [hb.2.2]
  · exact ⟨hfl, rfl, rfl, rfl, fun _ => rfl⟩
  · have hb := respBody_inv dc fl cr r hfl
    exact ⟨hb.1, hb.2.1, by rw [hb.2.2], by rw [hb.2.2], fun _ => by rw [hb.2.2]⟩
  · have hb := respBody_inv dc fl cr r hfl
    exact ⟨hb.1, hb.2.1, by rw [hb.2.2], by rw [hb.2.2], fun _ => by rw [hb.2.2]⟩

theorem respContentLength_inv (dc : downloadContext) (fl : Nat) (cr : Bool) (r : httpResp)
    (hfl : fl = dc.bytesRead) :
    (respContentLength dc fl cr r).flen = (respContentLength dc fl cr r).ctx.bytesRead ∧
    (respContentLength dc fl cr r).ctx.curRetry = dc.curRetry ∧
    (respContentLength dc fl cr r).ctx.opts.maxRetry = dc.opts.maxRetry ∧
    (0 < dc.opts.expectedSize →
      (respContentLength dc fl cr r).ctx.opts.expectedSize = dc.opts.expectedSize) ∧
    (dc.opts.expectedLastModified ≠ 0 →
      (respContentLength dc fl cr r).ctx.opts.expectedLastModified =
        dc.opts.expectedLastModified) := by
  simp only [respContentLength]
  by_cases hcl : 0 < parseContentLength r.contentLength
  · rw [if_pos hcl]
    by_cases hcr : cr = true
    · rw [if_pos hcr]
      by_cases hes : 0 < dc.opts.expectedSize
      · rw [if_pos hes]
        by_cases hne : parseContentLength r.contentLength ≠
            dc.opts.expectedSize - (dc.bytesRead : Int)
        · rw [if_pos hne]
          exact ⟨hfl, rfl, rfl, fun _ => rfl, fun _ => rfl⟩
        · rw [if_neg hne]
          have hb := respLastModified_inv dc fl cr r hfl
          exact ⟨hb.1, hb.2.1, hb.2.2.1, fun _ => hb.2.2.2.1, hb.2.2.2.2⟩
      · rw [if_neg hes]
        have hb := respLastModified_inv
          { dc with opts := { dc.opts with
              expectedSize := (dc.bytesRead : Int) + parseContentLength r.contentLength } }
          fl cr r hfl
        exact ⟨hb.1, hb.2.1, hb.2.2.1, fun hpos => absurd hpos hes, hb.2.2.2.2⟩
    · rw [if_neg hcr]
      by_cases hmis : 0 < dc.opts.expectedSize ∧
          parseContentLength r.contentLength ≠ dc.opts.expectedSize
      · rw [if_pos hmis]
        exact ⟨hfl, rfl, rfl, fun _ => rfl, fun _ => rfl⟩
      · rw [if_neg hmis]
        have hb := respLastModified_inv
          { dc with opts := { dc.opts with
              expectedSize := parseContentLength r.contentLength } }
          fl cr r hfl
        refine ⟨hb.1, hb.2.1, hb.2.2.1, fun hpos => ?_, hb.2.2.2.2⟩
        have hcl2 : parseContentLength r.contentLength = dc.opts.expectedSize := by
          by_contra hne
          exact hmis ⟨hpos, hne⟩
        rw [hb.2.2.2.1, hcl2]
  · rw [if_neg hcl]
    have hb := respLastModified_inv dc fl cr r hfl
    exact ⟨hb.1, hb.2.1, hb.2.2.1, fun _ => hb.2.2.2.1, hb.2.2.2.2⟩

theorem processResp_inv (dc : downloadContext) (fl : Nat) (cr : Bool) (r : httpResp)
    (hfl : fl = dc.bytesRead) :
    (processResp dc fl cr r).flen = (processResp dc fl cr r).ctx.bytesRead ∧
    (processResp dc fl cr r).ctx.curRetry = dc.curRetry ∧
    (processResp dc fl cr r).ctx.opts.maxRetry = dc.opts.maxRetry ∧
    (0 < dc.opts.expectedSize →
      (processResp dc fl cr r).ctx.opts.expectedSize = dc.opts.expectedSize) ∧
    (dc.opts.expectedLastModified ≠ 0 →
      (processResp dc fl cr r).ctx.opts.expectedLastModified =
        dc.opts.expectedLastModified) := by
  simp only [processResp]
  split_ifs <;>
    first
      | exact ⟨hfl, rfl, rfl, fun _ => rfl, fun _ => rfl⟩
      | exact respContentLength_inv { dc with bytesRead := 0 } 0 _ r rfl
      | exact respContentLength_inv dc fl _ r hfl

theorem respBody_success_size (dc : downloadContext) (fl : Nat) (cr : Bool) (r : httpResp)
    (dc' : downloadContext) (fl' : Nat) (h : respBody dc fl cr r = .success dc' fl') :
    0 < dc'.opts.expectedSize → (dc'.bytesRead : Int) = dc'.opts.expectedSize := by
  cases hb : r.body with
  | readErr n =>
    simp only [respBody, hb] at h
    exact stepResult.noConfusion h
  | eof n =>
    simp only [respBody, hb] at h
    split_ifs at h with h1 h2
    all_goals first
      | exact stepResult.noConfusion h
      | (simp only [stepResult.success.injEq] at h
         obtain ⟨hdc, -⟩ := h
         subst hdc
         intro hpos
         by_contra hne
         exact h2 ⟨hpos, hne⟩)

theorem respLastModified_success_size (dc : downloadContext) (fl : Nat) (cr : Bool)
    (r : httpResp) (dc' : downloadContext) (fl' : Nat)
    (h : respLastModified dc fl cr r = .success dc' fl') :
    0 < dc'.opts.expectedSize → (dc'.bytesRead : Int) = dc'.opts.expectedSize := by
  simp only [respLastModified] at h
  split_ifs at h
  all_goals first
    | exact stepResult.noConfusion h
    | exact respBody_success_size _ _ _ _ _ _ h

theorem respContentLength_success_size (dc : downloadContext) (fl : Nat) (cr : Bool)
    (r : httpResp) (dc' : downloadContext) (fl' : Nat)
    (h : respContentLength dc fl cr r = .success dc' fl') :
    0 < dc'.opts.expectedSize → (dc'.bytesRead : Int) = dc'.opts.expectedSize := by
  simp only [respContentLength] at h
  split_ifs at h
  all_goals first
    | exact stepResult.noConfusion h
    | exact respLastModified_success_size _ _ _ _ _ _ h

theorem processResp_success_size (dc : downloadContext) (fl : Nat) (cr : Bool)
    (r : httpResp) (dc' : downloadContext) (fl' : Nat)
    (h : processResp dc fl cr r = .success dc' fl') :
    0 < dc'.opts.expectedSize → (dc'.bytesRead : Int) = dc'.opts.expectedSize := by
  simp only [processResp] at h
  split_ifs at h
  all_goals first
    | exact stepResult.noConfusion h
    | exact respContentLength_success_size _ _ _ _ _ _ h

theorem respBody_fatal_kind (dc : downloadContext) (fl : Nat) (cr : Bool) (r : httpResp)
    (e : dlError) (dc' : downloadContext) (fl' : Nat)
    (h : respBody dc fl cr r = .fatal e dc' fl') :
    retryableKind e = false ∧ e ≠ .maxRetries ∧ e ≠ .createRequest := by
  cases hb : r.body with
  | readErr n =>
    simp only [respBody, hb] at h
    exact stepResult.noConfusion h
  | eof n =>
    simp only [respBody, hb] at h
    split_ifs at h
    all_goals first
      | exact stepResult.noConfusion h
      | (simp only [stepResult.fatal.injEq] at h
         obtain ⟨he, -, -⟩ := h
         subst he
         exact ⟨rfl, by decide, by decide⟩)

theorem respLastModified_fatal_kind (dc : downloadContext) (fl : Nat) (cr : Bool)
    (r : httpResp) (e : dlError) (dc' : downloadContext) (fl' : Nat)
    (h : respLastModified dc fl cr r = .fatal e dc' fl') :
    retryableKind e = false ∧ e ≠ .maxRetries ∧ e ≠ .createRequest := by
  simp only [respLastModified] at h
  split_ifs at h
  all_goals first
    | exact stepResult.noConfusion h
    | exact respBody_fatal_kind _ _ _ _ _ _ _ h
    | (simp only [stepResult.fatal.injEq] at h
       obtain ⟨he, -, -⟩ := h
       subst he
       exact ⟨rfl, by decide, by decide⟩)

theorem respContentLength_fatal_kind (dc : downloadContext) (fl : Nat) (cr : Bool)
    (r : httpResp) (e : dlError) (dc' : downloadContext) (fl' : Nat)
    (h : respContentLength dc fl cr r = .fatal e dc' fl') :
    retryableKind e = false ∧ e ≠ .maxRetries ∧ e ≠ .createRequest := by
  simp only [respContentLength] at h
  split_ifs at h
  all_goals first
    | exact stepResult.noConfusion h
    | exact respLastModified_fatal_kind _ _ _ _ _ _ _ h
    | (simp only [stepResult.fatal.injEq] at h
       obtain ⟨he, -, -⟩ := h
       subst he
       exact ⟨rfl, by decide, by decide⟩)

theorem processResp_fatal_kind (dc : downloadContext) (fl : Nat) (cr : Bool)
    (r : httpResp) (e : dlError) (dc' : downloadContext) (fl' : Nat)
    (h : processResp dc fl cr r = .fatal e dc' fl') :
    retryableKind e = false ∧ e ≠ .maxRetries ∧ e ≠ .createRequest := by
  simp only [processResp] at h
  split_ifs at h
  all_goals first
    | exact stepResult.noConfusion h
    | exact respContentLength_fatal_kind _ _ _ _ _ _ _ h
    | (simp only [stepResult.fatal.injEq] at h
       obtain ⟨he, -, -⟩ := h
       subst he
       exact ⟨rfl, by decide, by decide⟩)

theorem respBody_retry_state (dc : downloadContext) (fl : Nat) (cr : Bool) (r : httpResp)
    (e : dlError) (dc' : downloadContext) (fl' : Nat) (cr' : Bool)
    (h : respBody dc fl cr r = .retry e dc' fl' cr') :
    e = .readErr ∧ dc'.curRetry = dc.curRetry ∧ dc'.opts.maxRetry = dc.opts.maxRetry := by
  cases hb : r.body with
  | readErr n =>
    simp only [respBody, hb] at h
    simp only [stepResult.retry.injEq] at h
    obtain ⟨he, hdc, -, -⟩ := h
    subst he
    subst hdc
    exact ⟨rfl, rfl, rfl⟩
  | eof n =>
    simp only [respBody, hb] at h
    split_ifs at h

theorem respLastModified_retry_state (dc : downloadContext) (fl : Nat) (cr : Bool)
    (r : httpResp) (e : dlError) (dc' : downloadContext) (fl' : Nat) (cr' : Bool)
    (h : respLastModified dc fl cr r = .retry e dc' fl' cr') :
    e = .readErr ∧ dc'.curRetry = dc.curRetry ∧ dc'.opts.maxRetry = dc.opts.maxRetry := by
  simp only [respLastModified] at h
  split_ifs at h
  all_goals first
    | exact stepResult.noConfusion h
    | (have hk := respBody_retry_state _ _ _ _ _ _ _ _ h
       exact ⟨hk.1, hk.2.1, hk.2.2⟩)

theorem respContentLength_retry_state (dc : downloadContext) (fl : Nat) (cr : Bool)
    (r : httpResp) (e : dlError) (dc' : downloadContext) (fl' : Nat) (cr' : Bool)
    (h : respContentLength dc fl cr r = .retry e dc' fl' cr') :
    e = .readErr ∧ dc'.curRetry = dc.curRetry ∧ dc'.opts.maxRetry = dc.opts.maxRetry := by
  simp only [respContentLength] at h
  split_ifs at h
  all_goals first
    | exact stepResult.noConfusion h
    | (have hk := respLastModified_retry_state _ _ _ _ _ _ _ _ h
       exact ⟨hk.1, hk.2.1, hk.2.2⟩)

theorem processResp_retry_state (dc : downloadContext) (fl : Nat) (cr : Bool)
    (r : httpResp) (e : dlError) (dc' : downloadContext) (fl' : Nat) (cr' : Bool)
    (h : processResp dc fl cr r = .retry e dc' fl' cr') :
    e = .readErr ∧ dc'.curRetry = dc.curRetry ∧ dc'.opts.maxRetry = dc.opts.maxRetry := by
  simp only [processResp] at h
  split_ifs at h
  all_goals first
    | exact stepResult.noConfusion h
    | (have hk := respContentLength_retry_state _ _ _ _ _ _ _ _ h
       exact ⟨hk.1, hk.2.1, hk.2.2⟩)

/-! ## Driver lemmas for downloadImpl -/

theorem downloadImpl_ok_inv : ∀ (env : List attempt) (urlOk : Bool) (dc : downloadContext)
    (fl : Nat) (cr : Bool) (dc' : downloadContext) (fl' : Nat) (rest : List attempt),
    downloadImpl urlOk dc fl cr env = .ok dc' fl' rest →
    fl = dc.bytesRead →
    fl' = dc'.bytesRead ∧
    (0 < dc.opts.expectedSize → dc'.opts.expectedSize = dc.opts.expectedSize) ∧
    (0 < dc'.opts.expectedSize → (dc'.bytesRead : Int) = dc'.opts.expectedSize) ∧
    (dc.opts.expectedLastModified ≠ 0 →
      dc'.opts.expectedLastModified = dc.opts.expectedLastModified) := by
  intro env
  induction env with
  | nil =>
    intro urlOk dc fl cr dc' fl' rest h hfl
    simp only [downloadImpl] at h
    split_ifs at h
  | cons a env ih =>
    intro urlOk dc fl cr dc' fl' rest h hfl
    cases a with
    | transport =>
      simp only [downloadImpl] at h
      split_ifs at h
      have hrec := ih urlOk _ fl cr dc' fl' rest h hfl
      exact hrec
    | resp r =>
      simp only [downloadImpl] at h
      split_ifs at h
      cases hp : processResp dc fl cr r with
      | fatal e dc'' fl'' =>
        simp only [hp] at h
        exact implResult.noConfusion h
      | success dc'' fl'' =>
        simp only [hp, implResult.ok.injEq] at h
        obtain ⟨hdc, hfl2, -⟩ := h
        subst hdc
        subst hfl2
        have hinv := processResp_inv dc fl cr r hfl
        rw [hp] at hinv
        simp only [stepResult.ctx, stepResult.flen] at hinv
        exact ⟨hinv.1, hinv.2.2.2.1, processResp_success_size _ _ _ _ _ _ hp,
          hinv.2.2.2.2⟩
      | retry e dc'' fl'' cr'' =>
        simp only [hp] at h
        have hinv := processResp_inv dc fl cr r hfl
        rw [hp] at hinv
        simp only [stepResult.ctx, stepResult.flen] at hinv
        split_ifs at h
        have hrec := ih urlOk { dc'' with curRetry := dc''.curRetry + 1 }
          fl'' cr'' dc' fl' rest h hinv.1
        refine ⟨hrec.1, ?_, hrec.2.2.1, ?_⟩
        · intro hpos
          have h4 := hinv.2.2.2.1 hpos
          have h5 : 0 < dc''.opts.expectedSize := h4 ▸ hpos
          rw [hrec.2.1 h5, h4]
        · intro hlm
          have h4 := hinv.2.2.2.2 hlm
          have h5 : dc''.opts.expectedLastModified ≠ 0 := by
            rw [h4]
            exact hlm
          rw [hrec.2.2.2 h5, h4]

/-- C4: in the download engine, only transport-level failures (a failed
`http.DefaultClient.Do` and a read error from `io.Copy`, the `retryableKind`
errors) enter the retry path; every other `downloadImpl` error — the
validation failures (Content-Length mismatch in both forms, Last-Modified
mismatch, final-size mismatch) and the local I/O failures (seek, truncate,
body close) — is returned immediately, without a retry and regardless of
`max_retry`: whatever the `maxRetry` setting, when such an error comes back
the attempts consumed number exactly one more than the retries counted
(`curRetry` grew only by the earlier transport/read retries, and the failing
attempt itself neither slept nor re-entered the loop). -/
theorem downloadImpl_fatal_consumption : ∀ (env : List attempt) (urlOk : Bool)
    (dc : downloadContext) (fl : Nat) (cr : Bool) (e : dlError)
    (dc' : downloadContext) (fl' : Nat) (rest : List attempt),
    downloadImpl urlOk dc fl cr env = .err e dc' fl' rest →
    fl = dc.bytesRead →
    retryableKind e = false → e ≠ .maxRetries → e ≠ .createRequest →
    ∃ k, dc'.curRetry = dc.curRetry + k ∧ env.length = rest.length + k + 1 := by
  intro env
  induction env with
  | nil =>
    intro urlOk dc fl cr e dc' fl' rest h hfl hrk hm hc
    simp only [downloadImpl] at h
    split_ifs at h
    all_goals
      simp only [implResult.err.injEq] at h
      obtain ⟨he, -, -, -⟩ := h
      subst he
      first
        | exact absurd rfl hm
        | exact absurd rfl hc
  | cons a env ih =>
    intro urlOk dc fl cr e dc' fl' rest h hfl hrk hm hc
    cases a with
    | transport =>
      simp only [downloadImpl] at h
      split_ifs at h
      all_goals first
        | (simp only [implResult.err.injEq] at h
           obtain ⟨he, -, -, -⟩ := h
           subst he
           first
             | exact absurd rfl hm
             | exact absurd rfl hc
             | simp [retryableKind] at hrk)
        | (obtain ⟨k, hcur, hlen⟩ := ih urlOk _ fl cr e dc' fl' rest h hfl hrk hm hc
           dsimp only at hcur
           refine ⟨k + 1, by omega, by simp only [List.length_cons]; omega⟩)
    | resp r =>
      simp only [downloadImpl] at h
      split_ifs at h
      all_goals try
        (simp only [implResult.err.injEq] at h
         obtain ⟨he, -, -, -⟩ := h
         subst he
         first
           | exact absurd rfl hm
           | exact absurd rfl hc)
      cases hp : processResp dc fl cr r with
      | fatal e0 dc'' fl'' =>
        simp only [hp, implResult.err.injEq] at h
        obtain ⟨-, hdc, -, hrest⟩ := h
        subst hdc
        subst hrest
        have hinv := processResp_inv dc fl cr r hfl
        rw [hp] at hinv
        simp only [stepResult.ctx] at hinv
        refine ⟨0, ?_, ?_⟩
        · rw [hinv.2.1]
          omega
        · simp
      | success dc'' fl'' =>
        simp only [hp] at h
        exact implResult.noConfusion h
      | retry e0 dc'' fl'' cr'' =>
        simp only [hp] at h
        have hst := processResp_retry_state dc fl cr r e0 dc'' fl'' cr'' hp
        have hinv := processResp_inv dc fl cr r hfl
        rw [hp] at hinv
        simp only [stepResult.ctx, stepResult.flen] at hinv
        split_ifs at h
        · simp only [implResult.err.injEq] at h
          obtain ⟨he, -, -, -⟩ := h
          rw [← he, hst.1] at hrk
          simp [retryableKind] at hrk
        · obtain ⟨k, hcur, hlen⟩ := ih urlOk { dc'' with curRetry := dc''.curRetry + 1 }
            fl'' cr'' e dc' fl' rest h hinv.1 hrk hm hc
          dsimp only at hcur
          refine ⟨k + 1, ?_, by simp only [List.length_cons]; omega⟩
          rw [hcur, hst.2.1]
          omega

theorem respBody_readErr (dc : downloadContext) (fl : Nat) (cr : Bool) (r : httpResp)
    (n : Nat) (hbody : r.body = .readErr n) :
    respBody dc fl cr r =
      .retry .readErr { dc with bytesRead := dc.bytesRead + n } (fl + n) cr := by
  unfold respBody
  rw [hbody]

theorem respLastModified_nolm (dc : downloadContext) (fl : Nat) (cr : Bool) (r : httpResp)
    (hlm : r.lastModifiedMin = 0) :
    respLastModified dc fl cr r = respBody dc fl cr r := by
  simp only [respLastModified, hlm]
  simp

theorem respContentLength_nocl (dc : downloadContext) (fl : Nat) (cr : Bool) (r : httpResp)
    (hcl : r.contentLength = none) :
    respContentLength dc fl cr r = respLastModified dc fl cr r := by
  simp only [respContentLength, hcl, parseContentLength]
  rw [if_neg (by norm_num)]

theorem processResp_retryScripted (dc : downloadContext) (fl : Nat) (cr : Bool)
    (r : httpResp) (n : Nat)
    (hcl : r.contentLength = none) (hlm : r.lastModifiedMin = 0)
    (hseek : r.seekFails = false) (htrunc : r.truncateFails = false)
    (hbody : r.body = .readErr n) :
    ∃ dc'' fl'' cr'', processResp dc fl cr r = .retry .readErr dc'' fl'' cr'' ∧
      dc''.curRetry = dc.curRetry ∧ dc''.opts.maxRetry = dc.opts.maxRetry := by
  have hb : ∀ (d : downloadContext) (f : Nat) (c : Bool),
      respContentLength d f c r =
        .retry .readErr { d with bytesRead := d.bytesRead + n } (f + n) c := by
    intro d f c
    rw [respContentLength_nocl d f c r hcl, respLastModified_nolm d f c r hlm,
      respBody_readErr d f c r n hbody]
  simp only [processResp, hseek, htrunc, Bool.false_eq_true, if_false]
  split_ifs <;> exact ⟨_, _, _, hb _ _ _, rfl, rfl⟩

theorem downloadImpl_retryScripted : ∀ (env : List attempt) (c m : Nat)
    (dc : downloadContext) (fl : Nat) (cr : Bool),
    dc.opts.maxRetry = m → dc.curRetry = c → 0 < m → c < m →
    (∀ a ∈ env, retryScripted a = true) → m - c ≤ env.length →
    ∃ e dc' fl', retryableKind e = true ∧
      downloadImpl true dc fl cr env = .err e dc' fl' (env.drop (m - c)) ∧
      dc'.curRetry = m := by
  intro env
  induction env with
  | nil =>
    intro c m dc fl cr hm hc hpos hlt _ hlen
    simp only [List.length_nil] at hlen
    omega
  | cons a env ih =>
    intro c m dc fl cr hm hc hpos hlt hscript hlen
    have hsa := hscript a (List.mem_cons_self _ _)
    have hstail : ∀ a ∈ env, retryScripted a = true :=
      fun x hx => hscript x (List.mem_cons_of_mem _ hx)
    simp only [List.length_cons] at hlen
    cases a with
    | transport =>
      simp only [downloadImpl]
      rw [if_neg (by omega), if_neg (by simp)]
      split_ifs with hend
      · have hd : m - c = 1 := by omega
        rw [hd]
        refine ⟨.transport, { dc with curRetry := dc.curRetry + 1 }, fl, rfl, by simp, ?_⟩
        show dc.curRetry + 1 = m
        omega
      · obtain ⟨e, dc', fl', hek, heq, hcur⟩ := ih (c + 1) m
          { dc with curRetry := dc.curRetry + 1 } fl cr
          (show dc.opts.maxRetry = m from hm)
          (show dc.curRetry + 1 = c + 1 from by omega)
          hpos (by omega) hstail (by omega)
        refine ⟨e, dc', fl', hek, ?_, hcur⟩
        rw [heq, show m - c = (m - (c + 1)) + 1 from by omega, List.drop_succ_cons]
    | resp r =>
      simp only [retryScripted] at hsa
      rcases hbody : r.body with nb | nb
      · rw [hbody] at hsa
        simp at hsa
      · rw [hbody] at hsa
        simp only [decide_eq_true_eq] at hsa
        obtain ⟨hcl, hlm, hseek, htrunc⟩ := hsa
        obtain ⟨dc'', fl'', cr'', hp, hcur'', hmax''⟩ :=
          processResp_retryScripted dc fl cr r nb hcl hlm hseek htrunc hbody
        simp only [downloadImpl]
        rw [if_neg (by omega), if_neg (by simp), hp]
        simp only []
        split_ifs with hend
        · rw [hcur'', hmax''] at hend
          have hd : m - c = 1 := by omega
          rw [hd]
          refine ⟨.readErr, { dc'' with curRetry := dc''.curRetry + 1 }, fl'', rfl, by simp, ?_⟩
          show dc''.curRetry + 1 = m
          rw [hcur'']
          omega
        · rw [hcur'', hmax''] at hend
          obtain ⟨e, dc', fl', hek, heq, hcur⟩ := ih (c + 1) m
            { dc'' with curRetry := dc''.curRetry + 1 } fl'' cr''
            (show dc''.opts.maxRetry = m from by rw [hmax'']; exact hm)
            (show dc''.curRetry + 1 = c + 1 from by rw [hcur'']; omega)
            hpos (by omega) hstail (by omega)
          refine ⟨e, dc', fl', hek, ?_, hcur⟩
          rw [heq, show m - c = (m - (c + 1)) + 1 from by omega, List.drop_succ_cons]

theorem processResp_status (dc : downloadContext) (fl : Nat) (cr : Bool) (r : httpResp)
    (s : Nat) : processResp dc fl cr { r with status := s } = processResp dc fl cr r := rfl

/-- C5 (amended): the download engine never inspects the HTTP status code:
for every script of responses and every rewriting of their status fields, the
run of `downloadImpl` is unchanged (up to the same rewriting of the
unconsumed script).  In particular a non-200/non-206 response is processed
exactly like a 200 response — it is neither fatal nor retried on account of
its status. -/
theorem downloadImpl_ignores_status : ∀ (env : List attempt) (f : Nat → Nat) (urlOk : Bool)
    (dc : downloadContext) (fl : Nat) (cr : Bool),
    downloadImpl urlOk dc fl cr (env.map (setStatus f)) =
      (downloadImpl urlOk dc fl cr env).mapRest (List.map (setStatus f)) := by
  intro env
  induction env with
  | nil =>
    intro f urlOk dc fl cr
    simp only [List.map_nil, downloadImpl]
    split_ifs <;> rfl
  | cons a env ih =>
    intro f urlOk dc fl cr
    cases a with
    | transport =>
      simp only [List.map_cons, setStatus, downloadImpl]
      split_ifs <;> first | rfl | exact ih f urlOk _ fl cr
    | resp r =>
      simp only [List.map_cons, setStatus, downloadImpl]
      split_ifs
      all_goals try rfl
      rw [processResp_status]
      cases hp : processResp dc fl cr r with
      | fatal e dc'' fl'' => simp only [hp, implResult.mapRest]
      | success dc'' fl'' => simp only [hp, implResult.mapRest]
      | retry e dc'' fl'' cr'' =>
        simp only [hp]
        split_ifs <;> first | exact ih f urlOk _ fl'' cr'' | simp only [implResult.mapRest]

/-- Counterexample to C5: a response with HTTP status 404 (neither 200 nor
206) whose body streams 3 bytes is accepted by the download engine — the run
succeeds instead of failing fatally as the claim requires. -/
theorem status_not_checked_cex :
    ((404 : Nat) ≠ 200 ∧ (404 : Nat) ≠ 206) ∧
    downloadImpl true ⟨⟨0, 0, 5⟩, 0, 0⟩ 0 false
      [.resp ⟨404, none, none, 0, false, false, false, .eof 3⟩] =
      .ok ⟨⟨0, 0, 5⟩, 3, 0⟩ 3 [] :=
  ⟨by decide, rfl⟩

theorem respBody_errKind (dc : downloadContext) (fl : Nat) (cr : Bool) (r : httpResp) :
    (respBody dc fl cr r).errKind ≠ some .clMismatchResume ∧
    (respBody dc fl cr r).errKind ≠ some .clMismatch := by
  unfold respBody
  cases r.body <;> try simp [stepResult.errKind]
  split_ifs <;> simp [stepResult.errKind]

theorem respLastModified_errKind (dc : downloadContext) (fl : Nat) (cr : Bool)
    (r : httpResp) :
    (respLastModified dc fl cr r).errKind ≠ some .clMismatchResume ∧
    (respLastModified dc fl cr r).errKind ≠ some .clMismatch := by
  simp only [respLastModified]
  split_ifs
  all_goals first
    | exact respBody_errKind _ _ _ _
    | simp [stepResult.errKind]

/-- C6 (amended): on a resuming attempt (`canResume` true, `bytes_read > 0`;
`fl` is the temporary file's length, which the engine keeps equal to
`bytes_read`), the Content-Length validations apply only when the parsed
`Content-Length` is positive: with `Content-Length > 0` and
`expected_size > 0` the attempt fails fatally (no retry) unless the value
equals `expected_size - bytes_read`, and with `Content-Length > 0` and
`expected_size == 0` the attempt continues after setting `expected_size` to
`bytes_read + Content-Length`.  The header parses as a base-10 `int64`,
with absent or unparseable taken as `-1`; a `Content-Length ≤ 0` (in
particular the absent/unparseable `-1`) triggers neither the validation nor
the update. -/
theorem resume_contentLength_validation (dc : downloadContext) (fl : Nat) (r : httpResp)
    ( _hbr : 0 < dc.bytesRead) (hfl : fl = dc.bytesRead) :
    (r.contentLength = none → parseContentLength r.contentLength = -1) ∧
    (0 < parseContentLength r.contentLength → 0 < dc.opts.expectedSize →
      parseContentLength r.contentLength ≠ dc.opts.expectedSize - (dc.bytesRead : Int) →
      processResp dc fl true r = .fatal .clMismatchResume dc fl) ∧
    (0 < parseContentLength r.contentLength → dc.opts.expectedSize = 0 →
      (processResp dc fl true r).ctx.opts.expectedSize =
        (dc.bytesRead : Int) + parseContentLength r.contentLength) ∧
    (parseContentLength r.contentLength ≤ 0 →
      (processResp dc fl true r).ctx.opts.expectedSize = dc.opts.expectedSize ∧
      (processResp dc fl true r).errKind ≠ some .clMismatchResume ∧
      (processResp dc fl true r).errKind ≠ some .clMismatch) := by
  have hstep : processResp dc fl true r = respContentLength dc fl true r := by
    simp [processResp]
  refine ⟨fun h => by rw [h]; rfl, fun hcl hes hne => ?_, fun hcl hes0 => ?_, fun hcl => ?_⟩
  · rw [hstep]
    simp only [respContentLength]
    rw [if_pos hcl, if_pos trivial, if_pos hes, if_pos hne]
  · rw [hstep]
    simp only [respContentLength]
    rw [if_pos hcl, if_pos trivial, if_neg (by omega)]
    have hb := respLastModified_inv
      { dc with opts := { dc.opts with
          expectedSize := (dc.bytesRead : Int) + parseContentLength r.contentLength } }
      fl true r hfl
    exact hb.2.2.2.1
  · rw [hstep]
    simp only [respContentLength]
    rw [if_neg (by omega)]
    have hb := respLastModified_inv dc fl true r hfl
    have hk := respLastModified_errKind dc fl true r
    exact ⟨hb.2.2.2.1, hk.1, hk.2⟩

/-- Counterexample to C6: a resuming attempt (`canResume` true, 4 of an
expected 10 bytes already read) whose response carries no `Content-Length`
header at all — so the parsed value `-1` differs from
`expected_size - bytes_read = 6` — is not failed by the engine: the body's
remaining 6 bytes are streamed and the download succeeds, while the claim
says the engine fails fatally unless the parsed Content-Length equals
`expected_size - bytes_read`. -/
theorem resume_contentLength_guard_cex :
    parseContentLength none = -1 ∧
    ((-1 : Int) ≠ 10 - 4) ∧
    downloadImpl true ⟨⟨10, 0, 1⟩, 4, 0⟩ 4 true
      [.resp ⟨200, none, none, 0, false, false, false, .eof 6⟩] =
      .ok ⟨⟨10, 0, 1⟩, 10, 0⟩ 10 [] :=
  ⟨rfl, by decide, rfl⟩

/-- Witness for C6's amended validation at a concrete resuming attempt: a
response whose `Content-Length` is `"6"` with 4 of 10 expected bytes read
passes (6 = 10 - 4 is not a mismatch), and one with `"7"` is failed
fatally. -/
theorem resume_contentLength_validation_witness :
    processResp ⟨⟨10, 0, 1⟩, 4, 0⟩ 4 true
      ⟨200, none, some "7", 0, false, false, false, .eof 6⟩ =
      .fatal .clMismatchResume ⟨⟨10, 0, 1⟩, 4, 0⟩ 4 :=
  (resume_contentLength_validation ⟨⟨10, 0, 1⟩, 4, 0⟩ 4
      ⟨200, none, some "7", 0, false, false, false, .eof 6⟩
      (by decide) rfl).2.1 (by decide) (by decide) (by decide)

/-- C3: whenever `DownloadToFile` returns without error, the bytes at the
published final path are exactly the bytes streamed (`actual_size`), they
number exactly the resolved expected size — the caller's `expected_size`
when it was positive on entry, otherwise the size learned from the server's
`Content-Length` (the returned `expected_size`, whenever one is known) — and
the final file's modification time has been set to the resolved
`expected_last_modified` whenever that value is non-zero (the caller's when
it was non-zero on entry, otherwise the one learned from `Last-Modified`). -/
theorem DownloadToFile_success_postcondition (opts : DownloadOptions) (urlOk : Bool)
    (fs : fsEnv) (env : List attempt) (prevMtime : Nat) (res : DownloadResults)
    (ff : finalFile)
    (h : DownloadToFile opts urlOk fs env prevMtime = (res, .ok ff)) :
    ff.len = res.actualSize ∧
    (0 < opts.expectedSize → res.expectedSize = opts.expectedSize) ∧
    (0 < res.expectedSize → (ff.len : Int) = res.expectedSize) ∧
    (res.lastModified ≠ 0 → ff.mtime = res.lastModified) ∧
    (opts.expectedLastModified ≠ 0 → res.lastModified = opts.expectedLastModified) := by
  simp only [DownloadToFile] at h
  by_cases h1 : fs.createFails = true
  · rw [if_pos h1] at h
    simp only [Prod.mk.injEq] at h
    exact absurd h.2 (by simp)
  · rw [if_neg h1] at h
    cases himpl : downloadImpl urlOk { opts := opts, bytesRead := 0, curRetry := 0 } 0 false env with
    | needMore dc fl =>
      simp only [himpl, Prod.mk.injEq] at h
      exact absurd h.2 (by simp)
    | err e dc fl rest =>
      simp only [himpl, Prod.mk.injEq] at h
      exact absurd h.2 (by simp)
    | ok dc fl rest =>
      simp only [himpl] at h
      by_cases h2 : fs.closeFails = true
      · rw [if_pos h2] at h
        simp only [Prod.mk.injEq] at h
        exact absurd h.2 (by simp)
      · rw [if_neg h2] at h
        by_cases h3 : fs.replaceFails = true
        · rw [if_pos h3] at h
          simp only [Prod.mk.injEq] at h
          exact absurd h.2 (by simp)
        · rw [if_neg h3] at h
          by_cases h4 : fs.setTimeFails = true
          · rw [if_pos h4] at h
            simp only [Prod.mk.injEq] at h
            exact absurd h.2 (by simp)
          · rw [if_neg h4] at h
            simp only [Prod.mk.injEq, Except.ok.injEq] at h
            obtain ⟨hres, hff⟩ := h
            have hinv := downloadImpl_ok_inv env urlOk
              { opts := opts, bytesRead := 0, curRetry := 0 } 0 false dc fl rest himpl rfl
            subst hres
            subst hff
            refine ⟨hinv.1, hinv.2.1, ?_, ?_, hinv.2.2.2⟩
            · intro hpos
              rw [hinv.1]
              exact hinv.2.2.1 hpos
            · intro hlm
              simp only [mkResults] at hlm ⊢
              rw [if_pos hlm]

/-- Witness for C3 at a concrete successful run: expected size 3, expected
mtime 7, one response with `Content-Length: 3`, a matching `Last-Modified`,
and a 3-byte body; the final file has 3 bytes and mtime 7. -/
theorem DownloadToFile_success_postcondition_witness :
    (⟨3, 7⟩ : finalFile).len = (⟨3, 3, 7, 0⟩ : DownloadResults).actualSize ∧
    (0 < (⟨3, 7, 0⟩ : DownloadOptions).expectedSize →
      (⟨3, 3, 7, 0⟩ : DownloadResults).expectedSize =
        (⟨3, 7, 0⟩ : DownloadOptions).expectedSize) ∧
    (0 < (⟨3, 3, 7, 0⟩ : DownloadResults).expectedSize →
      ((⟨3, 7⟩ : finalFile).len : Int) = (⟨3, 3, 7, 0⟩ : DownloadResults).expectedSize) ∧
    ((⟨3, 3, 7, 0⟩ : DownloadResults).lastModified ≠ 0 →
      (⟨3, 7⟩ : finalFile).mtime = (⟨3, 3, 7, 0⟩ : DownloadResults).lastModified) ∧
    ((⟨3, 7, 0⟩ : DownloadOptions).expectedLastModified ≠ 0 →
      (⟨3, 3, 7, 0⟩ : DownloadResults).lastModified =
        (⟨3, 7, 0⟩ : DownloadOptions).expectedLastModified) :=
  DownloadToFile_success_postcondition ⟨3, 7, 0⟩ true ⟨false, false, false, false⟩
    [.resp ⟨200, none, some "3", 7, false, false, false, .eof 3⟩] 42 ⟨3, 3, 7, 0⟩ ⟨3, 7⟩ rfl

/-- Witness for C4 at a concrete run: one transport error (retried), then a
response whose `Content-Length: 7` mismatches the expected size 5 — the
Content-Length validation error comes back having consumed exactly 2
attempts with exactly 1 retry counted. -/
theorem downloadImpl_fatal_consumption_witness :
    ∃ k, (⟨⟨5, 0, 0⟩, 0, 1⟩ : downloadContext).curRetry =
        (⟨⟨5, 0, 0⟩, 0, 0⟩ : downloadContext).curRetry + k ∧
      ([.transport, .resp ⟨200, none, some "7", 0, false, false, false, .eof 7⟩] :
          List attempt).length = ([] : List attempt).length + k + 1 :=
  downloadImpl_fatal_consumption
    [.transport, .resp ⟨200, none, some "7", 0, false, false, false, .eof 7⟩]
    true ⟨⟨5, 0, 0⟩, 0, 0⟩ 0 false .clMismatch ⟨⟨5, 0, 0⟩, 0, 1⟩ 0 [] rfl rfl rfl
    (by decide) (by decide)

/-- C10: with `MaxRetry = N > 0` and every attempt failing with a retryable
error (a transport failure or a benign-headers response whose body read
fails), the engine performs exactly `N` HTTP attempts — consuming exactly
`N` entries of the script, with `curRetry` ending at `N` — before the
retryable error is propagated.  `MaxRetry = 1` therefore allows a single
attempt and no retry at all, although the option's comment reads "the
maximum number of times to retry after an error". -/
theorem maxRetry_attempt_count (env : List attempt) (opts : DownloadOptions) (fl : Nat)
    (N : Nat) (hN : opts.maxRetry = N) (hpos : 0 < N)
    (hscript : ∀ a ∈ env, retryScripted a = true) (hlen : N ≤ env.length) :
    ∃ e dc' fl', retryableKind e = true ∧
      downloadImpl true ⟨opts, 0, 0⟩ fl false env = .err e dc' fl' (env.drop N) ∧
      dc'.curRetry = N :=
  downloadImpl_retryScripted env 0 N ⟨opts, 0, 0⟩ fl false hN rfl hpos hpos hscript
    (by omega)

/-- Witness for C10 at `MaxRetry = 1` with a single scripted transport
failure: the engine makes exactly one attempt (consuming the whole script)
and propagates the error with one retry counted, sleeping never. -/
theorem maxRetry_attempt_count_witness :
    ∃ e dc' fl', retryableKind e = true ∧
      downloadImpl true ⟨⟨0, 0, 1⟩, 0, 0⟩ 0 false [.transport] =
        .err e dc' fl' (([.transport] : List attempt).drop 1) ∧
      dc'.curRetry = 1 :=
  maxRetry_attempt_count [.transport] ⟨0, 0, 1⟩ 0 1 rfl (by decide)
    (by decide) (by decide)
